import Mathlib

/-!
Verification development for the `pewl` resource-pooling library.

The embedding follows the current snapshot of the source:
`lib/pool.js` (class `Pool`), the `AbstractPool` variant providing
`_queueAcquire` and the `pending` getter, `lib/resource-list.js`
(class `ResourceList`), the documented `Resource` class
(fields `lastAcquired`, `createdAt`, `value`, `pingFailed`), and the
`Cluster` variant whose `acquire` throws on an empty pool selection.

JavaScript object identity is modelled by a `rid : Nat` field allocated
from a `nextRid` counter in the pool state; `Array.prototype.indexOf`
(used by `ResourceList.delete`) and `dead.indexOf(resource)` compare
identities, hence they are embedded as comparisons of `rid`.
Timestamps (`Date.now()`) are passed in explicitly as `Int` arguments.
`null` fields of a freshly constructed resource (`value`, `createdAt`)
are modelled with `Option`.
-/

namespace Pewl

/-- A pooled resource (class `Resource`): identity, opaque value handle,
timestamps and the ping-failure flag.  `value` and `createdAt` start as
`null` (here `none`) and are populated when `create()` succeeds. -/
structure Resource where
  rid : Nat
  value : Option Nat
  createdAt : Option Int
  lastAcquired : Int
  pingFailed : Bool
  deriving Repr, DecidableEq

/-- An ordered container of resources (class `ResourceList`), with the
insertion policy fixed at construction: `fifo = true` prepends
(`unshift`), otherwise appends (`push`). -/
structure ResourceList where
  fifo : Bool
  items : List Resource
  deriving Repr, DecidableEq

namespace ResourceList

/-- `ResourceList.add`: `unshift` when `fifo`, `push` otherwise. -/
def add (l : ResourceList) (r : Resource) : ResourceList :=
  if l.fifo then { l with items := r :: l.items }
  else { l with items := l.items ++ [r] }

/-- Remove the first element with the given identity
(`indexOf` + `splice(index, 1)`); no-op when absent. -/
def removeFirstRid : List Resource → Nat → List Resource
  | [], _ => []
  | r :: rest, i => if r.rid = i then rest else r :: removeFirstRid rest i

/-- `ResourceList.delete`: remove by identity, no-op if absent. -/
def delete (l : ResourceList) (r : Resource) : ResourceList :=
  { l with items := removeFirstRid l.items r.rid }

/-- `ResourceList.clear`: `this.length = 0`. -/
def clear (l : ResourceList) : ResourceList :=
  { l with items := [] }

/-- `ResourceList.findWhere({value})`: first element whose `value` field
equals the requested one (strict field equality). -/
def findWhereValue (l : ResourceList) (v : Option Nat) : Option Resource :=
  l.items.find? (fun r => r.value = v)

/-- `Array.prototype.shift`: take the first element. -/
def shift (l : ResourceList) : Option (Resource × ResourceList) :=
  match l.items with
  | [] => none
  | r :: rest => some (r, { l with items := rest })

/-- `ResourceList#length`. -/
def size (l : ResourceList) : Nat := l.items.length

end ResourceList

/-- A numeric option that may be `Infinity` (`max`, `maxIdle`). -/
inductive NatInf where
  | fin (n : Nat)
  | inf
  deriving Repr, DecidableEq

/-- `a < b` for a plain number `a` against a possibly-infinite bound. -/
def ltInf (a : Nat) : NatInf → Bool
  | .fin m => a < m
  | .inf => true

/-- `a > b` for a plain number `a` against a possibly-infinite bound. -/
def gtInf (a : Nat) : NatInf → Bool
  | .fin m => decide (m < a)
  | .inf => false

/-- The mutable state of a `Pool` together with the configuration fields
the verified operations read (`min`, `max`, `maxIdle`).
`pendingCreates` mirrors `this._pendingCreates` (a JS number, hence
`Int`); `acquirePending` mirrors `this._acquireQueue.pending`;
`inFlight` records the resources whose `create()` call has started and
not yet settled (each one was allocated a fresh `rid` from `nextRid`). -/
structure PoolState where
  isOpen : Bool
  available : ResourceList
  borrowed : ResourceList
  pendingCreates : Int
  inFlight : List Resource
  nextRid : Nat
  acquirePending : Nat
  min : Nat
  max : NatInf
  maxIdle : NatInf
  deriving Repr, DecidableEq

namespace PoolState

/-- `Pool#size`: `this.available + this.borrowed`. -/
def size (s : PoolState) : Nat :=
  s.available.size + s.borrowed.size

/-- `Pool#includes(value)`: membership across both containers. -/
def includes (s : PoolState) (v : Option Nat) : Bool :=
  (s.borrowed.findWhereValue v).isSome || (s.available.findWhereValue v).isSome

end PoolState

/-- `Pool._borrowResource`: shift the next available resource, stamp
`lastAcquired`, move it into `borrowed`.  Returns the borrowed resource
(the JS method returns `resource.value`) together with the new state;
`none` when no resource is available (the JS code only calls this when
one is). -/
def borrowResource (now : Int) (s : PoolState) : Option (Resource × PoolState) :=
  match s.available.shift with
  | none => none
  | some (r, av) =>
    let r' := { r with lastAcquired := now }
    some (r', { s with available := av, borrowed := s.borrowed.add r' })

/-- Result of the synchronous part of `Pool.acquire`. -/
inductive AcquireResult where
  | served (r : Resource)
  | queued
  | closedError
  deriving Repr, DecidableEq

/-- `AbstractPool._queueAcquire`: throws `The pool has been closed.` when
the pool is not open, otherwise enqueues the acquiring function on the
single-concurrency acquire queue.  The enqueued function's later
execution is modelled separately by `waitStep`. -/
def queueAcquire (s : PoolState) : AcquireResult × PoolState :=
  if s.isOpen then (.queued, s) else (.closedError, s)

/-- `Pool.acquire`: if `this.available && !this.pending`, synchronously
dequeue a resource via `_borrowResource`; otherwise go through
`_waitForAvailableResource`, i.e. `_queueAcquire`. -/
def acquire (now : Int) (s : PoolState) : AcquireResult × PoolState :=
  match borrowResource now s, s.acquirePending with
  | some (r, s'), 0 => (.served r, s')
  | _, _ => queueAcquire s

/-- `Pool._createResource`, the synchronous prefix: allocate a fresh
`Resource` (fresh identity, `value`/`createdAt` still `null`), increment
`_pendingCreates`, and hand the `create()` call to the request queue. -/
def createStart (now : Int) (s : PoolState) : PoolState :=
  let r : Resource :=
    { rid := s.nextRid, value := none, createdAt := none,
      lastAcquired := now, pingFailed := false }
  { s with nextRid := s.nextRid + 1,
           pendingCreates := s.pendingCreates + 1,
           inFlight := s.inFlight ++ [r] }

/-- `Pool._createResource`, the settlement: when the `create()` call for
the in-flight resource with identity `rid` settles, on success
(`outcome = some (v, t)`) the resource's value and `createdAt` are
populated and it is added to `available` (firing `available`); on
failure only `createError` is emitted.  Either way `_pendingCreates` is
decremented exactly once by the final `.then`.  A `rid` that is not in
flight settles nothing (each JS promise chain settles once). -/
def createSettle (rid : Nat) (outcome : Option (Nat × Int)) (s : PoolState) :
    PoolState :=
  match s.inFlight.find? (fun r => r.rid = rid) with
  | none => s
  | some r =>
    let s' := { s with inFlight := ResourceList.removeFirstRid s.inFlight rid,
                       pendingCreates := s.pendingCreates - 1 }
    match outcome with
    | some (v, t) =>
      { s' with available :=
          s'.available.add { r with value := some v, createdAt := some t } }
    | none => s'

/-- The creation gate inside the queued acquire function
(`Pool._waitForAvailableResource`):
`this.size < this.get('max') && this._pendingCreates < this._acquireQueue.pending`. -/
def shouldCreate (s : PoolState) : Bool :=
  ltInf s.size s.max && decide (s.pendingCreates < (s.acquirePending : Int))

/-- The synchronous step of the queued acquire function: trigger
`_createResource` exactly when the creation gate holds, then subscribe
to the `available` event.  Returns whether a creation was started. -/
def waitStep (now : Int) (s : PoolState) : Bool × PoolState :=
  if shouldCreate s then (true, createStart now s) else (false, s)

/-- `Pool.release(value)`: find the resource in `borrowed` by value;
throw `Unable to release unknown resource.` when absent; otherwise move
it `borrowed → available` and fire `available`.  The thrown error is
returned alongside the (then unchanged) state. -/
def releaseOp (v : Nat) (s : PoolState) : PoolState × Option String :=
  match s.borrowed.findWhereValue (some v) with
  | none => (s, some "Unable to release unknown resource.")
  | some r =>
    ({ s with borrowed := s.borrowed.delete r,
              available := s.available.add r }, none)

/-- `Pool._destroyResource`: delete from `available`, fire `destroyed`,
and when `options.create !== false` and the pool is open and now below
`min`, trigger a replacement `_createResource`.  The `resource.destroy()`
call itself is handed to the request queue (its failure only emits
`destroyError`). -/
def destroyResource (now : Int) (create : Bool) (r : Resource) (s : PoolState) :
    PoolState :=
  let s1 := { s with available := s.available.delete r }
  if create && s1.isOpen && decide (s1.size < s1.min) then createStart now s1
  else s1

/-- `Pool.destroy(value)`: throw `Unable to destroy unknown resource.`
when `includes` fails (state untouched); otherwise locate the resource —
a borrowed one is first moved into `available` — and run
`_destroyResource`. -/
def destroyOp (now : Int) (v : Nat) (s : PoolState) : PoolState × Option String :=
  if s.includes (some v) = false then
    (s, some "Unable to destroy unknown resource.")
  else
    match s.borrowed.findWhereValue (some v) with
    | some r =>
      let s1 := { s with available := s.available.add r,
                         borrowed := s.borrowed.delete r }
      (destroyResource now true r s1, none)
    | none =>
      match s.available.findWhereValue (some v) with
      | some r => (destroyResource now true r s, none)
      | none => (s, none)

/-- `Pool.drain()`: snapshot both containers, clear them, then destroy
every snapshotted resource with `{create: false}`. -/
def drainOp (now : Int) (s : PoolState) : PoolState :=
  let resources := s.available.items ++ s.borrowed.items
  let s1 := { s with available := s.available.clear, borrowed := s.borrowed.clear }
  resources.foldl (fun st r => destroyResource now false r st) s1

/-- `Pool.fill()`: compute `needed = min - available`; when positive,
start that many `_createResource` calls. -/
def fillOp (now : Int) (s : PoolState) : PoolState :=
  let needed : Int := (s.min : Int) - (s.available.size : Int)
  if needed < 1 then s
  else (createStart now)^[needed.toNat] s

/-- `Pool._pingIdleResources`: the resources pinged on a tick are exactly
the currently idle available ones. -/
def pingedResources (isIdle : Resource → Bool) (s : PoolState) : List Resource :=
  s.available.items.filter isIdle

/-- The per-resource handler of a failed ping in `Pool._pingIdleResources`
(`.catch`): `this._destroyResource(resource)` followed by a `pingError`
emission.  A successful ping runs no handler at all. -/
def pingFailureStep (now : Int) (r : Resource) (s : PoolState) : PoolState :=
  destroyResource now true r s

/-- A whole ping tick, parameterised by which pings fail. -/
def pingTick (now : Int) (isIdle fails : Resource → Bool) (s : PoolState) :
    PoolState :=
  (pingedResources isIdle s).foldl
    (fun st r => if fails r then pingFailureStep now r st else st) s

/-- The `while (idleCount-- > maxIdle && idleCount >= min)` loop of
`Pool._skimResources`: pop idle resources from the end of the idle
filter, appending each to the dead list unless already present (by
identity).  The first argument plays `idleCount` (the post-decrement
comparison reads the old value against `maxIdle` and the decremented one
against `min`). -/
def skimLoop (maxIdle : NatInf) (mn : Nat) :
    Nat → List Resource → List Resource → List Resource
  | 0, _, dead => dead
  | c + 1, idle, dead =>
    if gtInf (c + 1) maxIdle && decide (mn ≤ c) then
      match idle.getLast? with
      | none => dead
      | some r =>
        let dead' := if dead.any (fun d => d.rid = r.rid) then dead
                     else dead ++ [r]
        skimLoop maxIdle mn c idle.dropLast dead'
    else dead

/-- The selection phase of `Pool._skimResources`: dead resources among
the available ones, plus excess idle ones popped by the while loop. -/
def skimSelect (isDead isIdle : Resource → Bool) (maxIdle : NatInf) (mn : Nat)
    (avail : List Resource) : List Resource :=
  let dead := avail.filter isDead
  let idle := avail.filter isIdle
  skimLoop maxIdle mn idle.length idle dead

/-- `Pool._skimResources`: select, then `_destroyResource` each selected
resource (with replacement creation per that method's policy). -/
def skimOp (now : Int) (isDead isIdle : Resource → Bool) (s : PoolState) :
    PoolState :=
  (skimSelect isDead isIdle s.maxIdle s.min s.available.items).foldl
    (fun st r => destroyResource now true r st) s

/-- A member pool of a cluster: its static attribute tags plus its
state. -/
structure ClusterPool where
  attributes : List String
  pool : PoolState

/-- The state of a `Cluster`: the ordered member pool list. -/
structure ClusterState where
  pools : List ClusterPool

/-- `Cluster._getPoolsWhere(attributes)`: with no requested attributes
(after `arrify`) all pools are returned; otherwise the pools whose
attribute list contains every requested attribute. -/
def getPoolsWhere (attributes : List String) (pools : List ClusterPool) :
    List ClusterPool :=
  if attributes.isEmpty then pools
  else pools.filter (fun p => attributes.all (fun a => p.attributes.contains a))

/-- `Cluster._getAcquirablePool(pools)`: first a pool with an available
resource, then a pool with creation headroom
(`pool.size + pool.pending < pool.get('max')`). -/
def getAcquirablePool (pools : List ClusterPool) : Option ClusterPool :=
  match pools.find? (fun p => p.pool.available.size != 0) with
  | some p => some p
  | none =>
    pools.find? (fun p => ltInf (p.pool.size + p.pool.acquirePending) p.pool.max)

/-- Outcome of the synchronous part of `Cluster.acquire`. -/
inductive ClusterAcquire where
  | noPoolsWithAttrs (attrs : List String)
  | noPoolsInCluster
  | delegateSingle (p : ClusterPool)
  | delegateAcquirable (p : ClusterPool)
  | waitQueued

/-- Whether the outcome is one of the two thrown errors
(`No pools found with attribute(s) ...` / `No pools found in cluster.`). -/
def ClusterAcquire.isError : ClusterAcquire → Bool
  | .noPoolsWithAttrs _ => true
  | .noPoolsInCluster => true
  | _ => false

/-- `Cluster.acquire(options)`: filter pools by the requested attributes
(`attrs? = none` models an absent `options.attributes`); throw when the
filtered list is empty (the message depends on whether attributes were
passed); a single match delegates directly; otherwise prefer an
acquirable pool and fall back to queueing a wait. -/
def clusterAcquire (attrs? : Option (List String)) (c : ClusterState) :
    ClusterAcquire :=
  let attributes := attrs?.getD []
  let pools := getPoolsWhere attributes c.pools
  match pools with
  | [] =>
    match attrs? with
    | some a => .noPoolsWithAttrs a
    | none => .noPoolsInCluster
  | [p] => .delegateSingle p
  | _ =>
    match getAcquirablePool pools with
    | some p => .delegateAcquirable p
    | none => .waitQueued

/-- The number of idle resources the skim while-loop evicts, as a closed
formula: none when `maxIdle` is `Infinity`, otherwise the count above
`max maxIdle min` (the loop stops both at `maxIdle` and at `min`). -/
def evictCount (maxIdle : NatInf) (mn n : Nat) : Nat :=
  match maxIdle with
  | .inf => 0
  | .fin m => n - Nat.max m mn

/-- The skim removal set exactly as the specification words it: the dead
resources among the available ones, plus ALL idle resources in excess of
the `maxIdle` count (oldest-idle first), with no `min` guard.  Written
from the spec sentence for comparison against `skimSelect`. -/
def skimClaimSelect (isDead isIdle : Resource → Bool) (maxIdle : NatInf)
    (avail : List Resource) : List Resource :=
  let dead := avail.filter isDead
  let idle := avail.filter isIdle
  let excess := match maxIdle with
    | .inf => 0
    | .fin m => idle.length - m
  dead ++ (idle.reverse.take excess).filter
    (fun r => ! dead.any (fun d => d.rid = r.rid))

/-! ## Identity bookkeeping and the pool invariant -/

/-- The identities of a list of resources. -/
def ridsOf (l : List Resource) : List Nat := l.map Resource.rid

/-- All identities tracked by a pool: available, borrowed and in-flight. -/
def PoolState.allRids (s : PoolState) : List Nat :=
  ridsOf s.available.items ++ ridsOf s.borrowed.items ++ ridsOf s.inFlight

/-- The pool invariant: every tracked identity occurs once (in
particular a resource sits in at most one of the two containers), all
identities were allocated below `nextRid`, and `_pendingCreates` counts
exactly the in-flight creations. -/
def Inv (s : PoolState) : Prop :=
  s.allRids.Nodup ∧ (∀ i ∈ s.allRids, i < s.nextRid) ∧
    s.pendingCreates = (s.inFlight.length : Int)

instance (s : PoolState) : Decidable (Inv s) := by
  unfold Inv; infer_instance

/-- One interleaving-point step of the pool: the synchronous part of a
public call, a queued acquire function running, a waiting acquirer being
served by an `available` event, or a pending creation settling. -/
inductive Step where
  | acq (now : Int)
  | serve (now : Int)
  | waitRun (now : Int)
  | rel (v : Nat)
  | des (now : Int) (v : Nat)
  | drainStep (now : Int)
  | fillStep (now : Int)
  | settle (rid : Nat) (outcome : Option (Nat × Int))

/-- Run one step; the second component is the identity of the resource
handed to a borrower by this step, if any. -/
def runStep (s : PoolState) : Step → PoolState × Option Nat
  | .acq now =>
    match acquire now s with
    | (.served r, s') => (s', some r.rid)
    | (_, s') => (s', none)
  | .serve now =>
    match borrowResource now s with
    | some (r, s') => (s', some r.rid)
    | none => (s, none)
  | .waitRun now => ((waitStep now s).2, none)
  | .rel v => ((releaseOp v s).1, none)
  | .des now v => ((destroyOp now v s).1, none)
  | .drainStep now => (drainOp now s, none)
  | .fillStep now => (fillOp now s, none)
  | .settle rid outcome => (createSettle rid outcome s, none)

/-- Run a sequence of steps. -/
def runTrace (s : PoolState) : List Step → PoolState
  | [] => s
  | st :: rest => runTrace (runStep s st).1 rest

/-- The identities served to borrowers along a trace. -/
def servedRids (s : PoolState) : List Step → List Nat
  | [] => []
  | st :: rest =>
    (runStep s st).2.toList ++ servedRids (runStep s st).1 rest

/-- Steps that give the resource `r` back to the pool (or tear the pool
down): releasing or destroying its value, or draining. -/
def returnsResource (r : Resource) : Step → Prop
  | .rel v => r.value = some v
  | .des _ v => r.value = some v
  | .drainStep _ => True
  | _ => False

instance (r : Resource) : (st : Step) → Decidable (returnsResource r st)
  | .acq _ => inferInstanceAs (Decidable False)
  | .serve _ => inferInstanceAs (Decidable False)
  | .waitRun _ => inferInstanceAs (Decidable False)
  | .rel v => inferInstanceAs (Decidable (r.value = some v))
  | .des _ v => inferInstanceAs (Decidable (r.value = some v))
  | .drainStep _ => inferInstanceAs (Decidable True)
  | .fillStep _ => inferInstanceAs (Decidable False)
  | .settle _ _ => inferInstanceAs (Decidable False)

/-! ## Concrete states used in ground instances -/

/-- A created resource with value `7`. -/
def rA : Resource :=
  { rid := 0, value := some 7, createdAt := some 0, lastAcquired := 0,
    pingFailed := false }

/-- A created resource with value `9`. -/
def rB : Resource :=
  { rid := 1, value := some 9, createdAt := some 0, lastAcquired := 0,
    pingFailed := false }

/-- A closed pool that still holds one available resource (the state a
pool is in right after `close()` is called, before the asynchronous
drain runs). -/
def closedOneAvail : PoolState :=
  { isOpen := false,
    available := { fifo := true, items := [rA] },
    borrowed := { fifo := false, items := [] },
    pendingCreates := 0, inFlight := [], nextRid := 2, acquirePending := 0,
    min := 0, max := .inf, maxIdle := .inf }

/-- A closed pool with no available resources. -/
def closedEmpty : PoolState :=
  { isOpen := false,
    available := { fifo := true, items := [] },
    borrowed := { fifo := false, items := [] },
    pendingCreates := 0, inFlight := [], nextRid := 0, acquirePending := 0,
    min := 0, max := .inf, maxIdle := .inf }

/-- An open pool with one available and one borrowed resource. -/
def openPoolAB : PoolState :=
  { isOpen := true,
    available := { fifo := true, items := [rA] },
    borrowed := { fifo := false, items := [rB] },
    pendingCreates := 0, inFlight := [], nextRid := 2, acquirePending := 0,
    min := 0, max := .fin 5, maxIdle := .inf }

/-- An open single-resource pool with `max = 1`. -/
def roundPool : PoolState :=
  { isOpen := true,
    available := { fifo := true, items := [rA] },
    borrowed := { fifo := false, items := [] },
    pendingCreates := 0, inFlight := [], nextRid := 1, acquirePending := 0,
    min := 0, max := .fin 1, maxIdle := .inf }

/-- Idle resources used by the skim instances. -/
def rS1 : Resource :=
  { rid := 10, value := some 1, createdAt := some 0, lastAcquired := 0,
    pingFailed := false }

def rS2 : Resource :=
  { rid := 11, value := some 2, createdAt := some 0, lastAcquired := 0,
    pingFailed := false }

def rS3 : Resource :=
  { rid := 12, value := some 3, createdAt := some 0, lastAcquired := 0,
    pingFailed := false }

/-- Three available resources, all idle and none dead. -/
def skimEx : List Resource := [rS1, rS2, rS3]

/-- A predicate marking every resource idle. -/
def allIdle : Resource → Bool := fun _ => true

/-- A predicate marking no resource dead. -/
def noneDead : Resource → Bool := fun _ => false

/-- An open pool with three idle available resources, `maxIdle = 0` and
`min = 2`. -/
def skimPool : PoolState :=
  { isOpen := true,
    available := { fifo := true, items := skimEx },
    borrowed := { fifo := false, items := [] },
    pendingCreates := 0, inFlight := [], nextRid := 20, acquirePending := 0,
    min := 2, max := .inf, maxIdle := .fin 0 }

/-- An open pool holding one available (idle) resource, `min = 0`. -/
def pingPool : PoolState :=
  { isOpen := true,
    available := { fifo := true, items := [rA] },
    borrowed := { fifo := false, items := [] },
    pendingCreates := 0, inFlight := [], nextRid := 2, acquirePending := 0,
    min := 0, max := .inf, maxIdle := .inf }

/-- A resource whose last ping failed. -/
def rFlagged : Resource :=
  { rid := 3, value := some 4, createdAt := some 0, lastAcquired := 0,
    pingFailed := true }

/-- An open pool holding one available resource with `pingFailed` set. -/
def pingPoolFlagged : PoolState :=
  { isOpen := true,
    available := { fifo := true, items := [rFlagged] },
    borrowed := { fifo := false, items := [] },
    pendingCreates := 0, inFlight := [], nextRid := 4, acquirePending := 0,
    min := 0, max := .inf, maxIdle := .inf }

/-- An open pool with one borrowed resource (value `9`). -/
def borrowedPool : PoolState :=
  { isOpen := true,
    available := { fifo := true, items := [] },
    borrowed := { fifo := false, items := [rB] },
    pendingCreates := 0, inFlight := [], nextRid := 2, acquirePending := 0,
    min := 0, max := .inf, maxIdle := .inf }

/-! ## List-level helper lemmas -/

theorem removeFirstRid_sublist (l : List Resource) (i : Nat) :
    List.Sublist (ResourceList.removeFirstRid l i) l := by
  induction l with
  | nil => simp [ResourceList.removeFirstRid]
  | cons r rest ih =>
    by_cases h : r.rid = i
    · rw [ResourceList.removeFirstRid, if_pos h]
      exact List.sublist_cons_self r rest
    · rw [ResourceList.removeFirstRid, if_neg h]
      exact List.Sublist.cons₂ r ih

theorem mem_removeFirstRid {l : List Resource} {i : Nat} {r : Resource}
    (hr : r ∈ l) (hne : r.rid ≠ i) : r ∈ ResourceList.removeFirstRid l i := by
  induction l with
  | nil => simp at hr
  | cons x rest ih =>
    by_cases hx : x.rid = i
    · rw [ResourceList.removeFirstRid, if_pos hx]
      rcases List.mem_cons.mp hr with h | h
      · exact absurd (h ▸ hx) hne
      · exact h
    · rw [ResourceList.removeFirstRid, if_neg hx]
      rcases List.mem_cons.mp hr with h | h
      · exact h ▸ List.mem_cons_self x _
      · exact List.mem_cons_of_mem x (ih h)

theorem removeFirstRid_not_mem {l : List Resource} {i : Nat}
    (h : i ∉ ridsOf l) : ResourceList.removeFirstRid l i = l := by
  induction l with
  | nil => rfl
  | cons x rest ih =>
    simp only [ridsOf, List.map_cons, List.mem_cons, not_or] at h
    rw [ResourceList.removeFirstRid,
      if_neg (fun (hx : x.rid = i) => h.1 hx.symm),
      ih (by simpa [ridsOf] using h.2)]

theorem perm_removeFirstRid {l : List Resource} {i : Nat} (h : i ∈ ridsOf l) :
    List.Perm (ridsOf l) (i :: ridsOf (ResourceList.removeFirstRid l i)) := by
  induction l with
  | nil => simp [ridsOf] at h
  | cons x rest ih =>
    by_cases hx : x.rid = i
    · simp [ridsOf, ResourceList.removeFirstRid, hx]
    · simp only [ridsOf, List.map_cons, List.mem_cons] at h
      rcases h with h | h
      · exact absurd h.symm hx
      · rw [ResourceList.removeFirstRid, if_neg hx]
        refine List.Perm.trans (List.Perm.cons x.rid (ih h)) ?_
        exact List.Perm.swap _ _ _

theorem removeFirstRid_concat {l : List Resource} {r : Resource} {i : Nat}
    (hr : r.rid = i) (h : ∀ x ∈ l, x.rid ≠ i) :
    ResourceList.removeFirstRid (l ++ [r]) i = l := by
  induction l with
  | nil => simp [ResourceList.removeFirstRid, hr]
  | cons x rest ih =>
    rw [List.cons_append, ResourceList.removeFirstRid,
      if_neg (h x (List.mem_cons_self x rest)),
      ih (fun y hy => h y (List.mem_cons_of_mem x hy))]

theorem rid_inj_of_nodup {l : List Resource} (h : (ridsOf l).Nodup)
    {x y : Resource} (hx : x ∈ l) (hy : y ∈ l) (hr : x.rid = y.rid) : x = y := by
  induction l with
  | nil => simp at hx
  | cons a rest ih =>
    simp only [ridsOf, List.map_cons, List.nodup_cons] at h
    rcases List.mem_cons.mp hx with h1 | h1 <;>
      rcases List.mem_cons.mp hy with h2 | h2
    · exact h1.trans h2.symm
    · subst h1
      exact absurd (hr ▸ List.mem_map_of_mem Resource.rid h2) h.1
    · subst h2
      exact absurd (hr ▸ List.mem_map_of_mem Resource.rid h1) h.1
    · exact ih h.2 h1 h2

theorem ridsOf_add (l : ResourceList) (r : Resource) :
    List.Perm (ridsOf (l.add r).items) (r.rid :: ridsOf l.items) := by
  by_cases h : l.fifo
  · simp [ResourceList.add, h, ridsOf]
  · simp only [ResourceList.add, if_neg h, ridsOf, List.map_append, List.map_cons,
      List.map_nil]
    exact List.perm_append_singleton _ _

theorem mem_add (l : ResourceList) (r x : Resource) :
    x ∈ (l.add r).items ↔ x = r ∨ x ∈ l.items := by
  by_cases h : l.fifo
  · simp only [ResourceList.add, if_pos h, List.mem_cons]
  · simp only [ResourceList.add, if_neg h, List.mem_append, List.mem_singleton]
    tauto

theorem find?_concat_fresh {l : List Resource} {r : Resource} {n : Nat}
    (hr : r.rid = n) (h : ∀ x ∈ l, x.rid ≠ n) :
    (l ++ [r]).find? (fun x => x.rid = n) = some r := by
  induction l with
  | nil => simp [List.find?, hr]
  | cons x rest ih =>
    rw [List.cons_append,
      List.find?_cons_of_neg _ (by simp [h x (List.mem_cons_self x rest)])]
    exact ih (fun y hy => h y (List.mem_cons_of_mem x hy))

theorem findWhereValue_spec {l : ResourceList} {v : Option Nat} {r : Resource}
    (h : l.findWhereValue v = some r) : r ∈ l.items ∧ r.value = v := by
  refine ⟨List.mem_of_find?_eq_some h, ?_⟩
  have := List.find?_some h
  simpa using this

theorem length_removeFirstRid_of_mem {l : List Resource} {i : Nat}
    (h : i ∈ ridsOf l) :
    (ResourceList.removeFirstRid l i).length + 1 = l.length := by
  have := (perm_removeFirstRid h).length_eq
  simp only [ridsOf, List.length_map, List.length_cons] at this
  omega

/-! ## Permutation plumbing for `allRids` -/

theorem perm_cons_middle {W B : List Nat} {i : Nat} (A F : List Nat)
    (hW : List.Perm W (i :: B)) :
    List.Perm (A ++ W ++ F) (i :: (A ++ B ++ F)) := by
  refine List.Perm.trans ((hW.append_left A).append_right F) ?_
  have hm : List.Perm (A ++ i :: B) (i :: (A ++ B)) := List.perm_middle
  have h := hm.append_right F
  simp only [List.cons_append, List.append_assoc] at h ⊢
  exact h

theorem perm_cons_last {W F : List Nat} {i : Nat} (A B : List Nat)
    (hW : List.Perm W (i :: F)) :
    List.Perm (A ++ B ++ W) (i :: (A ++ B ++ F)) := by
  refine List.Perm.trans (hW.append_left (A ++ B)) ?_
  have hm : List.Perm ((A ++ B) ++ i :: F) (i :: ((A ++ B) ++ F)) :=
    List.perm_middle
  simpa using hm

/-! ## Invariant preservation -/

theorem inv_congr {s s' : PoolState} (h : Inv s)
    (hperm : List.Perm s'.allRids s.allRids)
    (hn : s.nextRid ≤ s'.nextRid)
    (hcnt : s'.pendingCreates = (s'.inFlight.length : Int)) : Inv s' := by
  refine ⟨hperm.symm.nodup h.1, fun i hi => ?_, hcnt⟩
  exact lt_of_lt_of_le (h.2.1 i (hperm.mem_iff.mp hi)) hn

theorem inv_drop {s s' : PoolState} {i : Nat} (h : Inv s)
    (hperm : List.Perm (i :: s'.allRids) s.allRids)
    (hn : s.nextRid ≤ s'.nextRid)
    (hcnt : s'.pendingCreates = (s'.inFlight.length : Int)) : Inv s' := by
  have hnd : (i :: s'.allRids).Nodup := hperm.symm.nodup h.1
  refine ⟨(List.nodup_cons.mp hnd).2, fun j hj => ?_, hcnt⟩
  exact lt_of_lt_of_le
    (h.2.1 j (hperm.mem_iff.mp (List.mem_cons_of_mem i hj))) hn

theorem allRids_createStart (now : Int) (s : PoolState) :
    (createStart now s).allRids = s.allRids ++ [s.nextRid] := by
  simp [createStart, PoolState.allRids, ridsOf]

theorem inv_createStart {s : PoolState} (h : Inv s) (now : Int) :
    Inv (createStart now s) := by
  refine ⟨?_, ?_, ?_⟩
  · rw [allRids_createStart]
    refine List.Nodup.append h.1 (List.nodup_singleton _) ?_
    intro i hi hmem
    have := h.2.1 i hi
    simp only [List.mem_singleton] at hmem
    omega
  · intro i hi
    rw [allRids_createStart] at hi
    rcases List.mem_append.mp hi with hi | hi
    · have := h.2.1 i hi
      simp [createStart]; omega
    · simp only [List.mem_singleton] at hi
      simp [createStart, hi]
  · have := h.2.2
    simp [createStart]
    omega

theorem inv_iterate_createStart {s : PoolState} (h : Inv s) (now : Int) :
    ∀ k, Inv ((createStart now)^[k] s) := by
  intro k
  induction k with
  | zero => simpa using h
  | succ n ih =>
    rw [Function.iterate_succ_apply']
    exact inv_createStart ih now

theorem borrowResource_eq {now : Int} {s : PoolState} {r : Resource}
    {s' : PoolState} (h : borrowResource now s = some (r, s')) :
    ∃ r₀ rest, s.available.items = r₀ :: rest ∧
      r = { r₀ with lastAcquired := now } ∧
      s' = { s with available := { s.available with items := rest },
                    borrowed := s.borrowed.add r } := by
  unfold borrowResource ResourceList.shift at h
  cases hav : s.available.items with
  | nil => rw [hav] at h; simp at h
  | cons r₀ rest =>
    rw [hav] at h
    simp only [Option.some.injEq, Prod.mk.injEq] at h
    obtain ⟨hr, hs⟩ := h
    subst hr
    exact ⟨r₀, rest, rfl, rfl, hs.symm⟩

theorem allRids_borrow {now : Int} {s : PoolState} {r : Resource}
    {s' : PoolState} (h : borrowResource now s = some (r, s')) :
    List.Perm s'.allRids s.allRids ∧ s'.nextRid = s.nextRid ∧
      s'.pendingCreates = s.pendingCreates ∧ s'.inFlight = s.inFlight := by
  obtain ⟨r₀, rest, hav, hr, hs⟩ := borrowResource_eq h
  subst hs
  refine ⟨?_, rfl, rfl, rfl⟩
  simp only [PoolState.allRids, hav]
  have hadd : List.Perm (ridsOf (s.borrowed.add r).items)
      (r₀.rid :: ridsOf s.borrowed.items) := by
    have := ridsOf_add s.borrowed r
    simpa [hr] using this
  refine List.Perm.trans
    (perm_cons_middle (ridsOf rest) (ridsOf s.inFlight) hadd) ?_
  simp [ridsOf]

theorem inv_borrow {now : Int} {s : PoolState} {r : Resource} {s' : PoolState}
    (hinv : Inv s) (h : borrowResource now s = some (r, s')) : Inv s' := by
  obtain ⟨hperm, hn, hp, hf⟩ := allRids_borrow h
  exact inv_congr hinv hperm (le_of_eq hn.symm) (by rw [hp, hf]; exact hinv.2.2)

theorem perm_cons_first {W A : List Nat} {i : Nat} (B F : List Nat)
    (hW : List.Perm W (i :: A)) :
    List.Perm (W ++ B ++ F) (i :: (A ++ B ++ F)) := by
  have := (hW.append_right B).append_right F
  simpa using this

theorem inv_move_to_available {s : PoolState} (hinv : Inv s) {r : Resource}
    (hmem : r ∈ s.borrowed.items) :
    Inv { s with available := s.available.add r,
                 borrowed := s.borrowed.delete r } := by
  have hrid : r.rid ∈ ridsOf s.borrowed.items :=
    List.mem_map_of_mem Resource.rid hmem
  refine inv_congr hinv ?_ le_rfl hinv.2.2
  show List.Perm
    (ridsOf (s.available.add r).items ++
      ridsOf (s.borrowed.delete r).items ++ ridsOf s.inFlight) s.allRids
  have h1 : List.Perm
      (ridsOf (s.available.add r).items ++
        ridsOf (s.borrowed.delete r).items ++ ridsOf s.inFlight)
      (r.rid :: (ridsOf s.available.items ++
        ridsOf (s.borrowed.delete r).items ++ ridsOf s.inFlight)) :=
    perm_cons_first _ _ (ridsOf_add s.available r)
  have h2 : List.Perm s.allRids
      (r.rid :: (ridsOf s.available.items ++
        ridsOf (s.borrowed.delete r).items ++ ridsOf s.inFlight)) :=
    perm_cons_middle _ _ (perm_removeFirstRid hrid)
  exact h1.trans h2.symm

theorem inv_release {s : PoolState} (hinv : Inv s) (v : Nat) :
    Inv (releaseOp v s).1 := by
  unfold releaseOp
  cases hfind : s.borrowed.findWhereValue (some v) with
  | none => exact hinv
  | some r => exact inv_move_to_available hinv (findWhereValue_spec hfind).1

theorem inv_destroyResource {s : PoolState} (hinv : Inv s) (now : Int)
    (c : Bool) (r : Resource) : Inv (destroyResource now c r s) := by
  have hinv1 : Inv { s with available := s.available.delete r } := by
    by_cases hmem : r.rid ∈ ridsOf s.available.items
    · refine inv_drop (i := r.rid) hinv ?_ le_rfl hinv.2.2
      show List.Perm
        (r.rid :: (ridsOf (s.available.delete r).items ++
          ridsOf s.borrowed.items ++ ridsOf s.inFlight)) s.allRids
      exact (perm_cons_first _ _ (perm_removeFirstRid hmem)).symm
    · have h1 : s.available.delete r = s.available := by
        rw [ResourceList.delete, removeFirstRid_not_mem hmem]
      rw [h1]
      exact hinv
  unfold destroyResource
  dsimp only
  split
  · exact inv_createStart hinv1 now
  · exact hinv1

theorem inv_destroy {s : PoolState} (hinv : Inv s) (now : Int) (v : Nat) :
    Inv (destroyOp now v s).1 := by
  unfold destroyOp
  split
  · exact hinv
  · cases hfind : s.borrowed.findWhereValue (some v) with
    | some r =>
      exact inv_destroyResource
        (inv_move_to_available hinv (findWhereValue_spec hfind).1) now true r
    | none =>
      cases hfind2 : s.available.findWhereValue (some v) with
      | some r => exact inv_destroyResource hinv now true r
      | none => exact hinv

theorem inv_foldl_destroy {l : List Resource} {t : PoolState} (h : Inv t)
    (now : Int) (c : Bool) :
    Inv (l.foldl (fun st r => destroyResource now c r st) t) := by
  induction l generalizing t with
  | nil => exact h
  | cons r rest ih => exact ih (inv_destroyResource h now c r)

theorem inv_drain {s : PoolState} (hinv : Inv s) (now : Int) :
    Inv (drainOp now s) := by
  unfold drainOp
  dsimp only
  have hbase :
      Inv { s with available := s.available.clear, borrowed := s.borrowed.clear } := by
    refine ⟨?_, ?_, hinv.2.2⟩
    · show (ridsOf (s.available.clear).items ++ ridsOf (s.borrowed.clear).items ++
        ridsOf s.inFlight).Nodup
      simp only [ResourceList.clear, ridsOf, List.map_nil, List.nil_append]
      exact (hinv.1.of_append_right)
    · intro i hi
      refine hinv.2.1 i ?_
      simp only [PoolState.allRids, ResourceList.clear, ridsOf, List.map_nil,
        List.nil_append] at hi
      simp only [PoolState.allRids]
      exact List.mem_append_right _ hi
  exact inv_foldl_destroy hbase now false

theorem inv_settle {s : PoolState} (hinv : Inv s) (rid : Nat)
    (outcome : Option (Nat × Int)) : Inv (createSettle rid outcome s) := by
  unfold createSettle
  cases hfind : s.inFlight.find? (fun r => r.rid = rid) with
  | none => exact hinv
  | some r =>
    have hmem : r ∈ s.inFlight := List.mem_of_find?_eq_some hfind
    have hr : r.rid = rid := by simpa using List.find?_some hfind
    subst hr
    have hridF : r.rid ∈ ridsOf s.inFlight :=
      List.mem_map_of_mem Resource.rid hmem
    have hlen := length_removeFirstRid_of_mem hridF
    have hcnt : s.pendingCreates - 1 =
        ((ResourceList.removeFirstRid s.inFlight r.rid).length : Int) := by
      have := hinv.2.2
      omega
    cases outcome with
    | some vt =>
      refine inv_congr hinv ?_ le_rfl hcnt
      show List.Perm
        (ridsOf (s.available.add
            { r with value := some vt.1, createdAt := some vt.2 }).items ++
          ridsOf s.borrowed.items ++
          ridsOf (ResourceList.removeFirstRid s.inFlight r.rid)) s.allRids
      have h1 := perm_cons_first
        (ridsOf s.borrowed.items)
        (ridsOf (ResourceList.removeFirstRid s.inFlight r.rid))
        (ridsOf_add s.available
          { r with value := some vt.1, createdAt := some vt.2 })
      have h2 : List.Perm s.allRids
          (r.rid :: (ridsOf s.available.items ++ ridsOf s.borrowed.items ++
            ridsOf (ResourceList.removeFirstRid s.inFlight r.rid))) :=
        perm_cons_last _ _ (perm_removeFirstRid hridF)
      exact h1.trans h2.symm
    | none =>
      refine inv_drop (i := r.rid) hinv ?_ le_rfl hcnt
      exact (perm_cons_last _ _ (perm_removeFirstRid hridF)).symm

theorem inv_fill {s : PoolState} (hinv : Inv s) (now : Int) :
    Inv (fillOp now s) := by
  unfold fillOp
  dsimp only
  split
  · exact hinv
  · exact inv_iterate_createStart hinv now _

theorem queueAcquire_snd (s : PoolState) : (queueAcquire s).2 = s := by
  unfold queueAcquire
  split <;> rfl

theorem inv_acquire {s : PoolState} (hinv : Inv s) (now : Int) :
    Inv (acquire now s).2 := by
  unfold acquire
  cases hb : borrowResource now s with
  | none =>
    rw [queueAcquire_snd]
    exact hinv
  | some p =>
    obtain ⟨r, s'⟩ := p
    cases hp : s.acquirePending with
    | zero => exact inv_borrow hinv hb
    | succ n =>
      show Inv (queueAcquire s).2
      rw [queueAcquire_snd]
      exact hinv

theorem runStep_acq (s : PoolState) (now : Int) :
    (runStep s (.acq now)).1 = (acquire now s).2 := by
  simp only [runStep]
  cases ha : acquire now s with
  | mk res s2 => cases res <;> rfl

theorem inv_runStep {s : PoolState} (hinv : Inv s) (st : Step) :
    Inv (runStep s st).1 := by
  cases st with
  | acq now =>
    rw [runStep_acq]
    exact inv_acquire hinv now
  | serve now =>
    simp only [runStep]
    cases hb : borrowResource now s with
    | none => exact hinv
    | some p =>
      obtain ⟨r, s'⟩ := p
      exact inv_borrow hinv hb
  | waitRun now =>
    simp only [runStep, waitStep]
    split
    · exact inv_createStart hinv now
    · exact hinv
  | rel v =>
    simp only [runStep]
    exact inv_release hinv v
  | des now v =>
    simp only [runStep]
    exact inv_destroy hinv now v
  | drainStep now =>
    simp only [runStep]
    exact inv_drain hinv now
  | fillStep now =>
    simp only [runStep]
    exact inv_fill hinv now
  | settle rid outcome =>
    simp only [runStep]
    exact inv_settle hinv rid outcome

/-! ## The borrowed container across steps -/

theorem borrowed_createStart (now : Int) (s : PoolState) :
    (createStart now s).borrowed = s.borrowed := rfl

theorem borrowed_iterate_createStart (now : Int) (s : PoolState) (k : Nat) :
    ((createStart now)^[k] s).borrowed = s.borrowed := by
  induction k with
  | zero => rfl
  | succ n ih => rw [Function.iterate_succ_apply', borrowed_createStart, ih]

theorem borrowed_destroyResource (now : Int) (c : Bool) (x : Resource)
    (t : PoolState) : (destroyResource now c x t).borrowed = t.borrowed := by
  unfold destroyResource
  dsimp only
  split
  · rfl
  · rfl

theorem borrowed_fillOp (now : Int) (s : PoolState) :
    (fillOp now s).borrowed = s.borrowed := by
  unfold fillOp
  dsimp only
  split
  · rfl
  · exact borrowed_iterate_createStart now s _

theorem borrowed_settle (rid : Nat) (outcome : Option (Nat × Int))
    (s : PoolState) : (createSettle rid outcome s).borrowed = s.borrowed := by
  unfold createSettle
  cases s.inFlight.find? (fun r => r.rid = rid) with
  | none => rfl
  | some r => cases outcome <;> rfl

theorem borrowed_waitStep (now : Int) (s : PoolState) :
    (waitStep now s).2.borrowed = s.borrowed := by
  unfold waitStep
  split <;> rfl

/-! ## No resource is served twice while borrowed -/

theorem borrowed_rids_nodup {s : PoolState} (hinv : Inv s) :
    (ridsOf s.borrowed.items).Nodup :=
  (hinv.1.of_append_left).of_append_right

theorem avail_borrowed_rid_ne {s : PoolState} (hinv : Inv s) {x y : Resource}
    (hx : x ∈ s.available.items) (hy : y ∈ s.borrowed.items) :
    x.rid ≠ y.rid := by
  have h1 : (ridsOf s.available.items ++ ridsOf s.borrowed.items).Nodup :=
    hinv.1.of_append_left
  have hd := (List.nodup_append.mp h1).2.2
  intro he
  exact hd (List.mem_map_of_mem Resource.rid hx)
    (he ▸ List.mem_map_of_mem Resource.rid hy)

theorem queueAcquire_cases (s : PoolState) :
    queueAcquire s = (.queued, s) ∨ queueAcquire s = (.closedError, s) := by
  unfold queueAcquire
  split
  · exact Or.inl rfl
  · exact Or.inr rfl

theorem acquire_eq (now : Int) (s : PoolState) :
    (∃ r s', acquire now s = (.served r, s') ∧
       borrowResource now s = some (r, s') ∧ s.acquirePending = 0) ∨
    acquire now s = queueAcquire s := by
  unfold acquire
  cases hb : borrowResource now s with
  | none => right; rfl
  | some p =>
    obtain ⟨r, s'⟩ := p
    cases hp : s.acquirePending with
    | zero => exact Or.inl ⟨r, s', rfl, rfl, rfl⟩
    | succ n => right; rfl

theorem release_keeps_other {s : PoolState} (hinv : Inv s) {r : Resource}
    (hb : r ∈ s.borrowed.items) {v : Nat} (hno : r.value ≠ some v) :
    r ∈ (releaseOp v s).1.borrowed.items := by
  unfold releaseOp
  cases hfind : s.borrowed.findWhereValue (some v) with
  | none => exact hb
  | some x =>
    obtain ⟨hxm, hxv⟩ := findWhereValue_spec hfind
    have hxr : x ≠ r := fun he => hno (he ▸ hxv)
    have hne : r.rid ≠ x.rid := fun he =>
      hxr (rid_inj_of_nodup (borrowed_rids_nodup hinv) hxm hb he.symm)
    exact mem_removeFirstRid hb hne

theorem destroy_keeps_other {s : PoolState} (hinv : Inv s) {r : Resource}
    (hb : r ∈ s.borrowed.items) (now : Int) {v : Nat}
    (hno : r.value ≠ some v) :
    r ∈ (destroyOp now v s).1.borrowed.items := by
  unfold destroyOp
  split
  · exact hb
  · cases hfind : s.borrowed.findWhereValue (some v) with
    | some x =>
      obtain ⟨hxm, hxv⟩ := findWhereValue_spec hfind
      have hxr : x ≠ r := fun he => hno (he ▸ hxv)
      have hne : r.rid ≠ x.rid := fun he =>
        hxr (rid_inj_of_nodup (borrowed_rids_nodup hinv) hxm hb he.symm)
      rw [borrowed_destroyResource]
      exact mem_removeFirstRid hb hne
    | none =>
      cases hfind2 : s.available.findWhereValue (some v) with
      | some x =>
        rw [borrowed_destroyResource]
        exact hb
      | none => exact hb

theorem step_keeps_borrowed {s : PoolState} (hinv : Inv s) {r : Resource}
    (hb : r ∈ s.borrowed.items) (st : Step) (hno : ¬ returnsResource r st) :
    r ∈ (runStep s st).1.borrowed.items ∧
      ∀ i, (runStep s st).2 = some i → i ≠ r.rid := by
  cases st with
  | acq now =>
    rcases acquire_eq now s with ⟨x, s', ha, hbr, hp⟩ | ha
    · have hrs : runStep s (.acq now) = (s', some x.rid) := by
        simp only [runStep, ha]
      rw [hrs]
      obtain ⟨r₀, rest, hav, hx, hs⟩ := borrowResource_eq hbr
      have hr₀ : r₀ ∈ s.available.items := by
        rw [hav]; exact List.mem_cons_self r₀ rest
      refine ⟨?_, ?_⟩
      · rw [hs]
        exact (mem_add _ _ _).mpr (Or.inr hb)
      · intro i hi
        obtain rfl : x.rid = i := by simpa using hi
        have hne := avail_borrowed_rid_ne hinv hr₀ hb
        rw [hx]
        exact hne
    · rcases queueAcquire_cases s with hq | hq <;>
        · have hrs : runStep s (.acq now) = (s, none) := by
            simp only [runStep, ha, hq]
          rw [hrs]
          exact ⟨hb, fun i hi => by simp at hi⟩
  | serve now =>
    cases hbr : borrowResource now s with
    | none =>
      have hrs : runStep s (.serve now) = (s, none) := by
        simp only [runStep, hbr]
      rw [hrs]
      exact ⟨hb, fun i hi => by simp at hi⟩
    | some p =>
      obtain ⟨x, s'⟩ := p
      have hrs : runStep s (.serve now) = (s', some x.rid) := by
        simp only [runStep, hbr]
      rw [hrs]
      obtain ⟨r₀, rest, hav, hx, hs⟩ := borrowResource_eq hbr
      have hr₀ : r₀ ∈ s.available.items := by
        rw [hav]; exact List.mem_cons_self r₀ rest
      refine ⟨?_, ?_⟩
      · rw [hs]
        exact (mem_add _ _ _).mpr (Or.inr hb)
      · intro i hi
        obtain rfl : x.rid = i := by simpa using hi
        have hne := avail_borrowed_rid_ne hinv hr₀ hb
        rw [hx]
        exact hne
  | waitRun now =>
    simp only [runStep]
    rw [borrowed_waitStep]
    exact ⟨hb, fun i hi => by simp at hi⟩
  | rel v =>
    simp only [runStep]
    have hnv : r.value ≠ some v := hno
    exact ⟨release_keeps_other hinv hb hnv, fun i hi => by simp at hi⟩
  | des now v =>
    simp only [runStep]
    have hnv : r.value ≠ some v := hno
    exact ⟨destroy_keeps_other hinv hb now hnv, fun i hi => by simp at hi⟩
  | drainStep now => exact absurd trivial hno
  | fillStep now =>
    simp only [runStep]
    rw [borrowed_fillOp]
    exact ⟨hb, fun i hi => by simp at hi⟩
  | settle rid outcome =>
    simp only [runStep]
    rw [borrowed_settle]
    exact ⟨hb, fun i hi => by simp at hi⟩

theorem trace_no_reborrow {s : PoolState} (hinv : Inv s) {r : Resource}
    (hb : r ∈ s.borrowed.items) (steps : List Step)
    (hno : ∀ st ∈ steps, ¬ returnsResource r st) :
    r ∈ (runTrace s steps).borrowed.items ∧
      ∀ i ∈ servedRids s steps, i ≠ r.rid := by
  induction steps generalizing s with
  | nil => exact ⟨hb, fun i hi => by simp [servedRids] at hi⟩
  | cons st rest ih =>
    have h1 := step_keeps_borrowed hinv hb st (hno st (List.mem_cons_self st rest))
    have hinv' := inv_runStep hinv st
    have hrec := ih hinv' h1.1 (fun st' h' => hno st' (List.mem_cons_of_mem st h'))
    refine ⟨hrec.1, fun i hi => ?_⟩
    simp only [servedRids, List.mem_append] at hi
    rcases hi with hi | hi
    · rcases ho : (runStep s st).2 with _ | j
      · rw [ho] at hi; simp at hi
      · rw [ho] at hi
        simp only [Option.toList_some, List.mem_singleton] at hi
        exact hi ▸ h1.2 j ho
    · exact hrec.2 i hi

/-! ## Claim theorems -/

/-- Claim C1, counterexample: the claim states that on a pool that is not
open every `acquire()` fails with a ClosedError for every state of the
containers.  On a closed pool that still holds an available resource and
has no pending acquirer (the state right after a synchronous `close()`
call), `Pool.acquire` takes the synchronous borrow path before any
closed check and succeeds. -/
theorem acquire_closed_served_counterexample :
    closedOneAvail.isOpen = false ∧
      (acquire 5 closedOneAvail).1 ≠ AcquireResult.closedError ∧
      (acquire 5 closedOneAvail).1 =
        AcquireResult.served { rA with lastAcquired := 5 } := by decide

/-- Claim C1 (amended): on a pool that is not open, `acquire()` fails
with the ClosedError (`The pool has been closed.`) and leaves the state
unchanged whenever the available container is empty or an acquire is
already pending — i.e. whenever the synchronous borrow path
(`this.available && !this.pending`) is not taken. -/
theorem acquire_closed_error (now : Int) (s : PoolState)
    (hclosed : s.isOpen = false)
    (hcase : s.available.items = [] ∨ s.acquirePending ≠ 0) :
    acquire now s = (AcquireResult.closedError, s) := by
  rcases acquire_eq now s with ⟨r, s', ha, hbr, hp0⟩ | ha
  · exfalso
    rcases hcase with he | hp
    · unfold borrowResource ResourceList.shift at hbr
      rw [he] at hbr
      simp at hbr
    · exact hp hp0
  · rw [ha]
    unfold queueAcquire
    rw [hclosed]
    simp

/-- Ground instance for the amended C1 theorem. -/
theorem acquire_closed_error_witness :
    closedEmpty.isOpen = false ∧
      acquire 3 closedEmpty = (AcquireResult.closedError, closedEmpty) :=
  ⟨rfl, acquire_closed_error 3 closedEmpty rfl (Or.inl rfl)⟩

/-- Claim C3: inside the queued acquire function, a creation is started
precisely when `size < max` and `_pendingCreates < _acquireQueue.pending`
(the number of pending acquirers); when the gate fails the state is
untouched, and the synchronous part of `acquire` itself never starts a
creation. -/
theorem creation_gate (now : Int) (s : PoolState) :
    ((waitStep now s).1 = true ↔
      (ltInf s.size s.max = true ∧
        s.pendingCreates < (s.acquirePending : Int))) ∧
    ((waitStep now s).1 = false → (waitStep now s).2 = s) ∧
    ((waitStep now s).1 = true → (waitStep now s).2 = createStart now s) ∧
    (acquire now s).2.pendingCreates = s.pendingCreates ∧
    (acquire now s).2.inFlight = s.inFlight := by
  have hgate : (waitStep now s).1 = true ↔ shouldCreate s = true := by
    unfold waitStep
    split
    · simp_all
    · simp_all
  refine ⟨?_, ?_, ?_, ?_, ?_⟩
  · rw [hgate]
    unfold shouldCreate
    simp [Bool.and_eq_true, decide_eq_true_iff]
  · intro h
    unfold waitStep at h ⊢
    split at h
    · simp at h
    · simp_all
  · intro h
    unfold waitStep at h ⊢
    split at h
    · simp_all
    · simp at h
  · rcases acquire_eq now s with ⟨r, s', ha, hbr, _⟩ | ha
    · rw [ha]
      exact (allRids_borrow hbr).2.2.1
    · rw [ha, queueAcquire_snd]
  · rcases acquire_eq now s with ⟨r, s', ha, hbr, _⟩ | ha
    · rw [ha]
      exact (allRids_borrow hbr).2.2.2
    · rw [ha, queueAcquire_snd]

/-- Claim C6: destroying a value the pool does not track (no match in
either container) throws `Unable to destroy unknown resource.` and the
state — both containers and every counter — is returned unchanged. -/
theorem destroy_unknown_error (now : Int) (v : Nat) (s : PoolState)
    (h1 : s.borrowed.findWhereValue (some v) = none)
    (h2 : s.available.findWhereValue (some v) = none) :
    s.includes (some v) = false ∧
      destroyOp now v s = (s, some "Unable to destroy unknown resource.") := by
  have hinc : s.includes (some v) = false := by
    simp [PoolState.includes, h1, h2]
  exact ⟨hinc, by simp [destroyOp, hinc]⟩

/-- Ground instance for the C6 theorem. -/
theorem destroy_unknown_error_witness :
    openPoolAB.includes (some 3) = false ∧
      destroyOp 0 3 openPoolAB =
        (openPoolAB, some "Unable to destroy unknown resource.") :=
  destroy_unknown_error 0 3 openPoolAB (by decide) (by decide)

/-- Claim C10: releasing a currently-borrowed value moves that very
`Resource` record — every field (`value`, `createdAt`, `lastAcquired`,
`pingFailed`) untouched — from `borrowed` to `available` and changes
nothing else in the pool; `lastAcquired` is only ever stamped by
`_borrowResource` during an acquire. -/
theorem release_frame (v : Nat) (s : PoolState) (r : Resource)
    (hfind : s.borrowed.findWhereValue (some v) = some r) :
    (releaseOp v s).2 = none ∧
    (releaseOp v s).1.borrowed = s.borrowed.delete r ∧
    (releaseOp v s).1.available = s.available.add r ∧
    ((releaseOp v s).1.available.items =
      if s.available.fifo then r :: s.available.items
      else s.available.items ++ [r]) ∧
    (releaseOp v s).1.pendingCreates = s.pendingCreates ∧
    (releaseOp v s).1.inFlight = s.inFlight ∧
    (releaseOp v s).1.nextRid = s.nextRid ∧
    (releaseOp v s).1.isOpen = s.isOpen ∧
    (∀ (now : Int) (t : PoolState) (x : Resource) (t' : PoolState),
      borrowResource now t = some (x, t') → x.lastAcquired = now) := by
  have heq : releaseOp v s =
      ({ s with borrowed := s.borrowed.delete r,
                available := s.available.add r }, none) := by
    simp only [releaseOp, hfind]
  refine ⟨?_, ?_, ?_, ?_, ?_, ?_, ?_, ?_, ?_⟩
  · rw [heq]
  · rw [heq]
  · rw [heq]
  · rw [heq]
    show (s.available.add r).items = _
    unfold ResourceList.add
    split
    · rfl
    · rfl
  · rw [heq]
  · rw [heq]
  · rw [heq]
  · rw [heq]
  · intro now t x t' hx
    obtain ⟨r₀, rest, _, hxe, _⟩ := borrowResource_eq hx
    rw [hxe]

/-- Ground instance for the C10 theorem. -/
theorem release_frame_witness :
    (releaseOp 9 borrowedPool).2 = none ∧
      (releaseOp 9 borrowedPool).1.available = borrowedPool.available.add rB :=
  ⟨(release_frame 9 borrowedPool rB (by decide)).1,
   (release_frame 9 borrowedPool rB (by decide)).2.2.1⟩

/-- Claim C2: every pool step (the synchronous part of acquire, a waiter
being served, the queued acquire function, release, destroy, drain,
fill, and a creation settling) preserves the invariant that each tracked
identity occurs in at most one container (`Inv`, whose first component
is `Nodup` over the concatenated identity lists); consequently a
resource handed to a borrower is never handed out again by any later
acquire until a step releases, destroys or drains it. -/
theorem resource_in_at_most_one_container (s : PoolState) (hinv : Inv s) :
    (∀ st : Step, Inv (runStep s st).1) ∧
    (∀ r : Resource, r ∈ s.borrowed.items →
      ∀ steps : List Step, (∀ st ∈ steps, ¬ returnsResource r st) →
        r ∈ (runTrace s steps).borrowed.items ∧
          ∀ i ∈ servedRids s steps, i ≠ r.rid) :=
  ⟨fun st => inv_runStep hinv st,
   fun _ hb steps hno => trace_no_reborrow hinv hb steps hno⟩

/-- Ground instance for the C2 theorem: in a pool where `rB` is
borrowed, an acquire followed by a release of the other value never
serves `rB`'s identity and `rB` stays borrowed. -/
theorem resource_in_at_most_one_container_witness :
    Inv openPoolAB ∧
      (rB ∈ (runTrace openPoolAB [Step.acq 1, Step.rel 7]).borrowed.items ∧
        ∀ i ∈ servedRids openPoolAB [Step.acq 1, Step.rel 7], i ≠ rB.rid) :=
  ⟨by decide,
   (resource_in_at_most_one_container openPoolAB (by decide)).2 rB (by decide)
     [Step.acq 1, Step.rel 7] (by decide)⟩

/-- Claim C9: `_pendingCreates` counts exactly the creations that have
started and not settled: `_createResource` increments it by one up
front, a settlement (success or failure) decrements it exactly once, a
start/settle round-trip leaves it unchanged, every step preserves the
count-equals-in-flight invariant, and the counter is never negative. -/
theorem pendingCreates_balanced (s : PoolState) (hinv : Inv s) :
    (∀ now : Int, (createStart now s).pendingCreates = s.pendingCreates + 1) ∧
    (∀ (rid : Nat) (outcome : Option (Nat × Int)) (r : Resource),
      s.inFlight.find? (fun x => x.rid = rid) = some r →
        (createSettle rid outcome s).pendingCreates = s.pendingCreates - 1) ∧
    (∀ (now : Int) (outcome : Option (Nat × Int)),
      (createSettle s.nextRid outcome (createStart now s)).pendingCreates =
        s.pendingCreates) ∧
    (∀ st : Step,
      (runStep s st).1.pendingCreates =
        ((runStep s st).1.inFlight.length : Int) ∧
      0 ≤ (runStep s st).1.pendingCreates) ∧
    0 ≤ s.pendingCreates := by
  refine ⟨fun now => rfl, ?_, ?_, ?_, ?_⟩
  · intro rid outcome r hfind
    unfold createSettle
    rw [hfind]
    cases outcome <;> rfl
  · intro now outcome
    have hfresh : ((createStart now s).inFlight).find?
        (fun x => x.rid = s.nextRid) =
        some { rid := s.nextRid, value := none, createdAt := none,
               lastAcquired := now, pingFailed := false } := by
      show (s.inFlight ++ [_]).find? _ = _
      refine find?_concat_fresh rfl ?_
      intro x hx hxe
      have hb := hinv.2.1 x.rid
        (List.mem_append_right _ (List.mem_map_of_mem Resource.rid hx))
      omega
    unfold createSettle
    rw [hfresh]
    cases outcome <;> (show s.pendingCreates + 1 - 1 = s.pendingCreates; omega)
  · intro st
    have h := (inv_runStep hinv st).2.2
    refine ⟨h, ?_⟩
    rw [h]
    exact Int.natCast_nonneg _
  · rw [hinv.2.2]
    exact Int.natCast_nonneg _

/-- Ground instance for the C9 theorem. -/
theorem pendingCreates_balanced_witness :
    Inv openPoolAB ∧
      (createStart 0 openPoolAB).pendingCreates =
        openPoolAB.pendingCreates + 1 ∧
      (createSettle openPoolAB.nextRid none
        (createStart 0 openPoolAB)).pendingCreates =
        openPoolAB.pendingCreates :=
  ⟨by decide,
   (pendingCreates_balanced openPoolAB (by decide)).1 0,
   (pendingCreates_balanced openPoolAB (by decide)).2.2.1 0 none⟩

/-- Claim C8: in a pool with `max = 1` holding exactly one created
resource and no pending acquirer, acquire, then release of the returned
value, then acquire again serves the same underlying value. -/
theorem acquire_release_acquire_roundtrip (now₁ now₂ : Int) (r : Resource)
    (v : Nat) (s : PoolState)
    (hav : s.available.items = [r]) (hbor : s.borrowed.items = [])
    (hpend : s.acquirePending = 0) (hv : r.value = some v)
    (_hmax : s.max = NatInf.fin 1) :
    ∃ r₁ s₁ s₂ r₂ s₃,
      acquire now₁ s = (AcquireResult.served r₁, s₁) ∧ r₁.value = some v ∧
      releaseOp v s₁ = (s₂, none) ∧
      acquire now₂ s₂ = (AcquireResult.served r₂, s₃) ∧ r₂.value = some v := by
  set r₁ : Resource := { r with lastAcquired := now₁ } with hr₁
  set s₁ : PoolState := { s with available := { s.available with items := [] }, borrowed := s.borrowed.add r₁ } with hs₁
  have hb1 : borrowResource now₁ s = some (r₁, s₁) := by
    unfold borrowResource ResourceList.shift
    rw [hav]
  have ha1 : acquire now₁ s = (AcquireResult.served r₁, s₁) := by
    unfold acquire
    rw [hb1, hpend]
  have hbi : s₁.borrowed.items = [r₁] := by
    rw [hs₁]
    show (s.borrowed.add r₁).items = [r₁]
    unfold ResourceList.add
    split <;> simp [hbor]
  have hv₁ : r₁.value = some v := hv
  have hfind : s₁.borrowed.findWhereValue (some v) = some r₁ := by
    unfold ResourceList.findWhereValue
    rw [hbi]
    simp [List.find?, hv]
  set s₂ : PoolState := { s₁ with borrowed := s₁.borrowed.delete r₁, available := s₁.available.add r₁ } with hs₂
  have hrel : releaseOp v s₁ = (s₂, none) := by
    simp only [releaseOp, hfind]
  have hai : s₂.available.items = [r₁] := by
    rw [hs₂]
    show (s₁.available.add r₁).items = [r₁]
    unfold ResourceList.add
    split <;> rfl
  set r₂ : Resource := { r₁ with lastAcquired := now₂ } with hr₂
  set s₃ : PoolState := { s₂ with available := { s₂.available with items := [] }, borrowed := s₂.borrowed.add r₂ } with hs₃
  have hb2 : borrowResource now₂ s₂ = some (r₂, s₃) := by
    unfold borrowResource ResourceList.shift
    rw [hai]
  have hp2 : s₂.acquirePending = 0 := hpend
  have ha2 : acquire now₂ s₂ = (AcquireResult.served r₂, s₃) := by
    unfold acquire
    rw [hb2, hp2]
  exact ⟨r₁, s₁, s₂, r₂, s₃, ha1, hv₁, hrel, ha2, hv⟩

/-- Ground instance for the C8 theorem. -/
theorem acquire_release_acquire_roundtrip_witness :
    ∃ r₁ s₁ s₂ r₂ s₃,
      acquire 1 roundPool = (AcquireResult.served r₁, s₁) ∧
        r₁.value = some 7 ∧
      releaseOp 7 s₁ = (s₂, none) ∧
      acquire 2 s₂ = (AcquireResult.served r₂, s₃) ∧ r₂.value = some 7 :=
  acquire_release_acquire_roundtrip 1 2 rA 7 roundPool rfl rfl rfl rfl rfl

theorem skimLoop_spec (maxIdle : NatInf) (mn : Nat) (idle : List Resource) :
    ∀ dead : List Resource, (ridsOf idle).Nodup →
    skimLoop maxIdle mn idle.length idle dead =
      dead ++ (idle.reverse.take (evictCount maxIdle mn idle.length)).filter
        (fun r => ! dead.any (fun d => d.rid = r.rid)) := by
  induction idle using List.reverseRecOn with
  | nil =>
    intro dead _
    cases maxIdle <;> simp [skimLoop, evictCount]
  | append_singleton init a ih =>
    intro dead hnd
    have hnd' : (ridsOf init).Nodup := by
      simp only [ridsOf, List.map_append, List.map_cons, List.map_nil] at hnd
      exact hnd.of_append_left
    have ha : a.rid ∉ ridsOf init := by
      simp only [ridsOf, List.map_append, List.map_cons, List.map_nil] at hnd
      have hd := (List.nodup_append.mp hnd).2.2
      intro hc
      exact hd hc (List.mem_singleton_self _)
    have hlen : (init ++ [a]).length = init.length + 1 := by simp
    rw [hlen]
    cases maxIdle with
    | inf =>
      simp [skimLoop, gtInf, evictCount]
    | fin m =>
      by_cases hcond : m < init.length + 1 ∧ mn ≤ init.length
      · have hc1 : (gtInf (init.length + 1) (.fin m) &&
            decide (mn ≤ init.length)) = true := by
          simp [gtInf]
          omega
        have hK : evictCount (.fin m) mn (init.length + 1) =
            evictCount (.fin m) mn init.length + 1 := by
          simp only [evictCount, Nat.max_def]
          split <;> omega
        rw [skimLoop, if_pos hc1, hK]
        simp only [List.getLast?_concat, List.dropLast_concat,
          List.reverse_append, List.reverse_cons, List.reverse_nil,
          List.nil_append, List.cons_append, List.take_succ_cons,
          List.singleton_append]
        by_cases hdead : (dead.any fun d => d.rid = a.rid) = true
        · rw [if_pos hdead, ih dead hnd', List.filter_cons]
          simp [hdead]
        · rw [if_neg hdead, ih (dead ++ [a]) hnd']
          have hfc : (init.reverse.take
                (evictCount (.fin m) mn init.length)).filter
              (fun r => ! (dead ++ [a]).any (fun d => d.rid = r.rid)) =
              (init.reverse.take
                (evictCount (.fin m) mn init.length)).filter
              (fun r => ! dead.any (fun d => d.rid = r.rid)) := by
            refine List.filter_congr ?_
            intro x hx
            have hxi : x ∈ init := by
              have := List.mem_of_mem_take hx
              exact List.mem_reverse.mp this
            have hxa : ¬ (a.rid = x.rid) := by
              intro hc
              exact ha (hc ▸ List.mem_map_of_mem Resource.rid hxi)
            simp [List.any_append, hxa]
          rw [hfc, List.filter_cons]
          simp [hdead]
      · have hc1 : ¬ ((gtInf (init.length + 1) (.fin m) &&
            decide (mn ≤ init.length)) = true) := by
          simp [gtInf]
          omega
        have hK : evictCount (.fin m) mn (init.length + 1) = 0 := by
          simp only [evictCount, Nat.max_def]
          split <;> omega
        rw [skimLoop, if_neg hc1, hK]
        simp

theorem destroyResource_inFlight_length (now : Int) (r : Resource)
    (t : PoolState) :
    (destroyResource now true r t).inFlight.length =
      t.inFlight.length +
        (if t.isOpen = true ∧
            (t.available.delete r).size + t.borrowed.size < t.min
         then 1 else 0) := by
  unfold destroyResource
  dsimp only
  split
  · rename_i h
    simp only [Bool.true_and, Bool.and_eq_true, decide_eq_true_iff] at h
    rw [if_pos ⟨h.1, h.2⟩]
    simp [createStart]
  · rename_i h
    simp only [Bool.true_and, Bool.and_eq_true, decide_eq_true_iff, not_and] at h
    rw [if_neg (fun hc => (h hc.1) hc.2)]
    simp

/-- Claim C4, counterexample: with three idle, non-dead available
resources, `maxIdle = 0` and `min = 2`, the skim loop stops once the
idle count would drop below `min` and removes a single resource, while
the claim's removal set (dead ∪ all idle in excess of `maxIdle`)
contains all three — `rS1` is in the claimed set but is not removed. -/
theorem skim_min_guard_counterexample :
    (skimSelect noneDead allIdle (.fin 0) 2 skimEx).length = 1 ∧
      (skimClaimSelect noneDead allIdle (.fin 0) skimEx).length = 3 ∧
      rS1 ∈ skimClaimSelect noneDead allIdle (.fin 0) skimEx ∧
      rS1 ∉ skimSelect noneDead allIdle (.fin 0) 2 skimEx := by decide

/-- Claim C4 (amended): on a skim tick the removed set equals the dead
available resources plus the idle resources in excess of the `maxIdle`
count — evicted from the tail of the idle list (the oldest-idle end
under the default prepend insertion) — but only while the remaining idle
count stays at or above `min`; each removed resource is destroyed via
`_destroyResource`, which triggers a replacement creation exactly when
the pool is open and the removal drops `size` below `min`. -/
theorem skim_removes_dead_and_excess_idle (now : Int)
    (isDead isIdle : Resource → Bool) (s : PoolState)
    (hnd : (ridsOf (s.available.items.filter isIdle)).Nodup) :
    skimSelect isDead isIdle s.maxIdle s.min s.available.items =
      s.available.items.filter isDead ++
        ((s.available.items.filter isIdle).reverse.take
            (evictCount s.maxIdle s.min
              (s.available.items.filter isIdle).length)).filter
          (fun r => ! (s.available.items.filter isDead).any
            (fun d => d.rid = r.rid)) ∧
    skimOp now isDead isIdle s =
      (skimSelect isDead isIdle s.maxIdle s.min s.available.items).foldl
        (fun st r => destroyResource now true r st) s ∧
    (∀ (r : Resource) (t : PoolState),
      (destroyResource now true r t).inFlight.length =
        t.inFlight.length +
          (if t.isOpen = true ∧
              (t.available.delete r).size + t.borrowed.size < t.min
           then 1 else 0)) := by
  refine ⟨?_, rfl, fun r t => destroyResource_inFlight_length now r t⟩
  unfold skimSelect
  exact skimLoop_spec s.maxIdle s.min (s.available.items.filter isIdle)
    (s.available.items.filter isDead) hnd

/-- Ground instance for the amended C4 theorem. -/
theorem skim_removes_dead_and_excess_idle_witness :
    (ridsOf (skimPool.available.items.filter allIdle)).Nodup ∧
      skimSelect noneDead allIdle skimPool.maxIdle skimPool.min
          skimPool.available.items =
        skimPool.available.items.filter noneDead ++
          ((skimPool.available.items.filter allIdle).reverse.take
              (evictCount skimPool.maxIdle skimPool.min
                (skimPool.available.items.filter allIdle).length)).filter
            (fun r => ! (skimPool.available.items.filter noneDead).any
              (fun d => d.rid = r.rid)) :=
  ⟨by decide,
   (skim_removes_dead_and_excess_idle 0 noneDead allIdle skimPool
     (by decide)).1⟩

/-- Claim C7: `Cluster.acquire` throws exactly when the filtered pool
list is empty, i.e. when the cluster has no pools at all or no member
pool's attribute list contains every requested attribute. -/
theorem cluster_acquire_fails_iff (attrs? : Option (List String))
    (c : ClusterState) :
    (clusterAcquire attrs? c).isError = true ↔
      (c.pools = [] ∨
        ∀ p ∈ c.pools,
          ¬ ((attrs?.getD []).all (fun a => p.attributes.contains a) = true)) := by
  have herr : (clusterAcquire attrs? c).isError = true ↔
      getPoolsWhere (attrs?.getD []) c.pools = [] := by
    unfold clusterAcquire
    dsimp only
    cases hpw : getPoolsWhere (attrs?.getD []) c.pools with
    | nil =>
      cases attrs? <;> simp [ClusterAcquire.isError]
    | cons p rest =>
      cases rest with
      | nil => simp [ClusterAcquire.isError]
      | cons q rest' =>
        cases hacq : getAcquirablePool (p :: q :: rest') <;>
          simp [ClusterAcquire.isError]
  rw [herr]
  unfold getPoolsWhere
  by_cases hemp : (attrs?.getD []).isEmpty
  · rw [if_pos hemp]
    have hall : ∀ p : ClusterPool,
        (attrs?.getD []).all (fun a => p.attributes.contains a) = true := by
      intro p
      rw [List.isEmpty_iff] at hemp
      rw [hemp]
      rfl
    constructor
    · intro h
      exact Or.inl h
    · intro h
      rcases h with h | h
      · exact h
      · cases hp : c.pools with
        | nil => rfl
        | cons p rest =>
          exact absurd (hall p) (h p (by rw [hp]; exact List.mem_cons_self p rest))
  · rw [if_neg hemp]
    rw [List.filter_eq_nil_iff]
    constructor
    · intro h
      exact Or.inr h
    · intro h
      rcases h with h | h
      · intro p hp
        rw [h] at hp
        simp at hp
      · exact h

theorem not_mem_removeFirstRid_self {l : List Resource}
    (hnd : (ridsOf l).Nodup) {r : Resource} (hm : r ∈ l) :
    r ∉ ResourceList.removeFirstRid l r.rid := by
  intro hc
  have hp := perm_removeFirstRid (List.mem_map_of_mem Resource.rid hm)
  have hnd2 : (r.rid :: ridsOf (ResourceList.removeFirstRid l r.rid)).Nodup :=
    hp.nodup hnd
  exact (List.nodup_cons.mp hnd2).1 (List.mem_map_of_mem Resource.rid hc)

theorem available_destroyResource (now : Int) (c : Bool) (r : Resource)
    (t : PoolState) :
    (destroyResource now c r t).available = t.available.delete r := by
  unfold destroyResource
  dsimp only
  split
  · rfl
  · rfl

theorem pingTick_no_failures (now : Int) (isIdle : Resource → Bool)
    (s : PoolState) : pingTick now isIdle (fun _ => false) s = s := by
  unfold pingTick
  generalize pingedResources isIdle s = l
  induction l generalizing s with
  | nil => rfl
  | cons x rest ih => exact ih s

/-- Claim C5, counterexample: the claim states that a failed ping only
sets the resource's `pingFailed` flag, the resource staying in the
available list until the next skim, and that a successful ping clears
the flag.  In the code the failure handler calls `_destroyResource`
immediately — the resource leaves the available list at once and its
`pingFailed` flag is never written — and a successful ping runs no
handler at all, so a set flag stays set. -/
theorem ping_flag_counterexample :
    ((pingFailureStep 0 rA pingPool).available.items.any
        (fun x => x.rid = rA.rid)) = false ∧
      rA.pingFailed = false ∧
      pingTick 0 allIdle (fun _ => false) pingPoolFlagged = pingPoolFlagged ∧
      rFlagged.pingFailed = true := by decide

/-- Claim C5 (amended): on a ping tick exactly the currently idle
available resources are pinged; a ping failure immediately destroys the
resource — it is deleted from the available list right away (with
replacement creation exactly when the pool is open and size drops below
`min`) and `pingError` is emitted — rather than setting `pingFailed`;
a ping success runs no handler, leaving the state (and every
`pingFailed` flag) unchanged. -/
theorem ping_outcomes (now : Int) (isIdle : Resource → Bool) (s : PoolState)
    (r : Resource) (hnd : (ridsOf s.available.items).Nodup)
    (hmem : r ∈ s.available.items) :
    pingedResources isIdle s = s.available.items.filter isIdle ∧
    (pingFailureStep now r s).available = s.available.delete r ∧
    r ∉ (pingFailureStep now r s).available.items ∧
    (pingFailureStep now r s).borrowed = s.borrowed ∧
    (∀ x ∈ (pingFailureStep now r s).available.items,
      x ∈ s.available.items) ∧
    (pingFailureStep now r s).inFlight.length =
      s.inFlight.length +
        (if s.isOpen = true ∧
            (s.available.delete r).size + s.borrowed.size < s.min
         then 1 else 0) ∧
    pingTick now isIdle (fun _ => false) s = s := by
  refine ⟨rfl, available_destroyResource now true r s, ?_, ?_, ?_, ?_, ?_⟩
  · rw [show (pingFailureStep now r s).available = s.available.delete r from
      available_destroyResource now true r s]
    exact not_mem_removeFirstRid_self hnd hmem
  · exact borrowed_destroyResource now true r s
  · intro x hx
    rw [show (pingFailureStep now r s).available = s.available.delete r from
      available_destroyResource now true r s] at hx
    exact (removeFirstRid_sublist s.available.items r.rid).subset hx
  · exact destroyResource_inFlight_length now r s
  · exact pingTick_no_failures now isIdle s

/-- Ground instance for the amended C5 theorem. -/
theorem ping_outcomes_witness :
    (ridsOf pingPool.available.items).Nodup ∧
      rA ∈ pingPool.available.items ∧
      (pingFailureStep 0 rA pingPool).available =
        pingPool.available.delete rA ∧
      rA ∉ (pingFailureStep 0 rA pingPool).available.items :=
  ⟨by decide, by decide,
   (ping_outcomes 0 allIdle pingPool rA (by decide) (by decide)).2.1,
   (ping_outcomes 0 allIdle pingPool rA (by decide) (by decide)).2.2.1⟩

end Pewl
